import Mathlib

/-!
# Verification of the catcher job lifecycle engine

Shallow embedding of the core of the `catcher` repository:

* `internal/domain` (`part_004`, `part_005`): the `Job` entity, `Job.CanRetry`,
  and the `JobService` façade (`Submit` with URL validation; the other service
  methods are direct pass-throughs to the repository).
* `internal/adapter/sqlite/repository.go`: the job store. The SQLite table is
  modelled as a list of rows in insertion (rowid) order together with the
  `AUTOINCREMENT` counter. Each SQL `UPDATE ... WHERE p` is modelled as a map
  over all rows, updating exactly the rows satisfying `p`, with
  `RowsAffected` the count of rows satisfying `p`. The `created_at` and
  `updated_at` timestamp columns are elided: wall-clock time is not statable
  in this embedding and no settled property depends on the timestamps.
* `internal/worker/worker.go`: `Worker.processJob`, with the external command
  execution abstracted as an explicit outcome parameter.
* `internal/adapter/processor/registry.go`: first-match processor dispatch.
* `internal/adapter/processor/command.go`: the isolated-execution move
  protocol (`processIsolated`, `moveFiles`), with the filesystem modelled as
  an association list from file name to content.
-/

namespace Catcher

/-- `domain.JobStatus` (part_004): the four status strings. -/
inductive JobStatus
  | pending
  | processing
  | completed
  | failed
deriving DecidableEq, Repr

/-- `domain.Job` (part_004). `created_at`/`updated_at` are elided (see header). -/
structure Job where
  id : Int
  url : String
  status : JobStatus
  attempts : Int
  error : String
deriving DecidableEq, Repr

/-- `Job.CanRetry` (part_004): `j.Attempts < maxAttempts && j.Status != StatusCompleted`. -/
def Job.canRetry (j : Job) (maxAttempts : Int) : Bool :=
  decide (j.attempts < maxAttempts) && !(j.status == JobStatus.completed)

/-- `domain.ErrJobNotFound`; the only store-level error the claims mention. -/
inductive StoreError
  | notFound
deriving DecidableEq, Repr

/-- The jobs table of `sqlite/repository.go`: rows in rowid (insertion) order
plus the `AUTOINCREMENT` counter for the next id. -/
structure Store where
  jobs : List Job
  nextId : Int
deriving Repr

/-- The `WHERE id = ? AND status = 'pending'` predicate of `Repository.Claim`. -/
def claimPred (id : Int) (j : Job) : Bool :=
  j.id == id && j.status == JobStatus.pending

/-- The `SET status = 'processing', attempts = attempts + 1` effect of
`Repository.Claim`, applied to the rows matching `claimPred`. -/
def claimUpdate (id : Int) (j : Job) : Job :=
  if claimPred id j then
    { j with status := JobStatus.processing, attempts := j.attempts + 1 }
  else j

namespace Store

/-- `Repository.Create`: insert a row with status pending and attempts 0
(the schema defaults), returning the new job with its assigned id. -/
def create (s : Store) (url : String) : Store × Job :=
  let job : Job :=
    { id := s.nextId, url := url, status := JobStatus.pending, attempts := 0, error := "" }
  ({ jobs := s.jobs ++ [job], nextId := s.nextId + 1 }, job)

/-- `Repository.Get`: `SELECT ... WHERE id = ?`; `sql.ErrNoRows` becomes
`ErrJobNotFound`. `id` is the primary key, so the first matching row is the row. -/
def get (s : Store) (id : Int) : Except StoreError Job :=
  match s.jobs.find? (fun j => j.id == id) with
  | some j => Except.ok j
  | none => Except.error StoreError.notFound

/-- `Repository.FindPending`: pending rows, oldest first (insertion order),
up to `limit`. -/
def findPending (s : Store) (limit : Nat) : List Job :=
  (s.jobs.filter (fun j => j.status == JobStatus.pending)).take limit

/-- `Repository.Claim`: the conditional
`UPDATE jobs SET status='processing', attempts=attempts+1 WHERE id=? AND status='pending'`;
if `RowsAffected` is zero the result is `ErrJobNotFound`. -/
def claim (s : Store) (id : Int) : Except StoreError Store :=
  let affected := s.jobs.countP (fun j => claimPred id j)
  if affected = 0 then Except.error StoreError.notFound
  else Except.ok { s with jobs := s.jobs.map (claimUpdate id) }

/-- `Repository.Complete`: `UPDATE jobs SET status='completed' WHERE id=?`
(no status guard; the error column is not touched). -/
def complete (s : Store) (id : Int) : Store :=
  { s with jobs := s.jobs.map (fun j =>
      if j.id == id then { j with status := JobStatus.completed } else j) }

/-- `Repository.Fail`: `UPDATE jobs SET status='failed', error=? WHERE id=?`
(no status guard). -/
def fail (s : Store) (id : Int) (reason : String) : Store :=
  { s with jobs := s.jobs.map (fun j =>
      if j.id == id then { j with status := JobStatus.failed, error := reason } else j) }

/-- `Repository.Retry`: `UPDATE jobs SET status='pending', error=? WHERE id=?`
(no status guard; attempts is not touched). -/
def retry (s : Store) (id : Int) (reason : String) : Store :=
  { s with jobs := s.jobs.map (fun j =>
      if j.id == id then { j with status := JobStatus.pending, error := reason } else j) }

/-- The fixed recovery marker written by `Repository.RecoverStale`. -/
def recoveredMarker : String := "recovered after crash"

/-- `Repository.RecoverStale`:
`UPDATE jobs SET status='pending', error='recovered after crash' WHERE status='processing'`,
returning `RowsAffected`. -/
def recoverStale (s : Store) : Store × Nat :=
  ({ s with jobs := s.jobs.map (fun j =>
      if j.status == JobStatus.processing then
        { j with status := JobStatus.pending, error := recoveredMarker }
      else j) },
   s.jobs.countP (fun j => j.status == JobStatus.processing))

/-- The row with a given id (the primary key lookup used throughout the proofs). -/
def jobOf (s : Store) (id : Int) : Option Job :=
  s.jobs.find? (fun j => j.id == id)

end Store

/-! ## Store operation sequences

The repository operations reachable through the `JobService` façade, as an
explicit operation type, so that properties over arbitrary operation
sequences (claim C3) can be stated. A failed `claim` leaves the store as it
was (the conditional `UPDATE` matched no row). -/

/-- One repository call. -/
inductive StoreOp
  | create (url : String)
  | claim (id : Int)
  | complete (id : Int)
  | fail (id : Int) (reason : String)
  | retry (id : Int) (reason : String)
  | recoverStale

/-- Apply one repository call to the store state. -/
def Store.apply (s : Store) : StoreOp → Store
  | StoreOp.create url => (s.create url).1
  | StoreOp.claim id =>
    match s.claim id with
    | Except.ok s2 => s2
    | Except.error _ => s
  | StoreOp.complete id => s.complete id
  | StoreOp.fail id reason => s.fail id reason
  | StoreOp.retry id reason => s.retry id reason
  | StoreOp.recoverStale => (s.recoverStale).1

/-- Apply a sequence of repository calls, oldest first. -/
def Store.applyAll (s : Store) (ops : List StoreOp) : Store :=
  ops.foldl Store.apply s

/-- The store of a fresh database: no rows, `AUTOINCREMENT` starting at 1. -/
def emptyStore : Store := { jobs := [], nextId := 1 }

/-! ## JobService.Submit (part_005) and its URL validation

`Submit` calls Go's `net/url.ParseRequestURI` and maps any parse error to
`ErrInvalidURL`, then calls `repo.Create`. `ParseRequestURI` is the Go
standard library's `url.parse(rawURL, viaRequest := true)`. The embedding
below models its accept/reject verdict, following that code's structure
step by step: the control-byte check, the emptiness check, the `"*"` case,
`getScheme`, the query split (the query itself is stored raw, unvalidated),
the absolute-URI-or-absolute-path requirement of `viaRequest` (a rootless
remainder with a scheme is an opaque URI, returned without further
validation), and then — for rooted remainders — the per-component
validation: when the scheme is non-empty and the remainder starts with
`"//"`, the authority up to the next `/` goes through `parseAuthority`
(userinfo character class and escape checks, `parseHost` with its bracketed
IPv6 form, `%25` zone handling, `validOptionalPort`, and the host-mode
`unescape` checks that reject bad escapes, `%XY` escapes below `0x80` other
than `%25`, and unescaped ASCII outside the host character class), and the
remaining path goes through `setPath`, whose path-mode `unescape` rejects
exactly malformed percent escapes. Go scans bytes where this model scans
characters; the verdicts agree, since every byte of a multi-byte UTF-8
character is at least `0x80` and the checks treat all such bytes (and the
corresponding characters) alike. -/

/-- `'a' <= c && c <= 'z' || 'A' <= c && c <= 'Z'` (the scheme head class of
`net/url.getScheme`). -/
def isSchemeAlpha (c : Char) : Bool :=
  ('a' ≤ c && c ≤ 'z') || ('A' ≤ c && c ≤ 'Z')

/-- `'0' <= c && c <= '9' || c == '+' || c == '-' || c == '.'` (the scheme
tail class of `net/url.getScheme`). -/
def isSchemeExtra (c : Char) : Bool :=
  ('0' ≤ c && c ≤ '9') || c == '+' || c == '-' || c == '.'

/-- The scan loop of `net/url.getScheme` over the characters of the URL:
`none` is the `missing protocol scheme` error (a `':'` at position 0);
`some (scheme, rest)` returns the scheme (empty when the string has none)
and the remainder. -/
def getSchemeGo (orig : List Char) : Nat → List Char → Option (List Char × List Char)
  | _, [] => some ([], orig)
  | i, c :: rest =>
    if isSchemeAlpha c then getSchemeGo orig (i + 1) rest
    else if isSchemeExtra c then
      if i == 0 then some ([], orig) else getSchemeGo orig (i + 1) rest
    else if c == ':' then
      if i == 0 then none else some (orig.take i, rest)
    else some ([], orig)

/-- `net/url.getScheme`. -/
def getScheme (s : List Char) : Option (List Char × List Char) :=
  getSchemeGo s 0 s

/-- `net/url.stringContainsCTLByte`: any byte below `0x20` or equal to `0x7f`. -/
def stringContainsCTLByte (s : String) : Bool :=
  s.toList.any (fun c => c.toNat < 0x20 || c.toNat == 0x7f)

/-- Alphanumeric ASCII, the characters `net/url.shouldEscape` always passes. -/
def isAlphaNum (c : Char) : Bool :=
  ('a' ≤ c && c ≤ 'z') || ('A' ≤ c && c ≤ 'Z') || ('0' ≤ c && c ≤ '9')

/-- `net/url.ishex`. -/
def isHexDigit (c : Char) : Bool :=
  ('0' ≤ c && c ≤ '9') || ('a' ≤ c && c ≤ 'f') || ('A' ≤ c && c ≤ 'F')

/-- `net/url.unhex`. -/
def unhex (c : Char) : Nat :=
  if '0' ≤ c && c ≤ '9' then c.toNat - '0'.toNat
  else if 'a' ≤ c && c ≤ 'f' then c.toNat - 'a'.toNat + 10
  else if 'A' ≤ c && c ≤ 'F' then c.toNat - 'A'.toNat + 10
  else 0

/-- `net/url.shouldEscape(c, encodeHost)` (also used for `encodeZone`, which
shares the host character table): false for alphanumerics, the host-mode
sub-delimiters and brackets, and the unreserved marks; true for every other
ASCII character. -/
def shouldEscapeHost (c : Char) : Bool :=
  if isAlphaNum c then false
  else if ['!', '$', '&', '\'', '(', ')', '*', '+', ',', ';', '=',
           ':', '[', ']', '<', '>', '"'].contains c then false
  else if ['-', '_', '.', '~'].contains c then false
  else true

/-- Error conditions of `net/url.unescape(s, encodePath)` (also
`encodeUserPassword`): every `%` must be followed by two hex digits; nothing
else is rejected in these modes. -/
def escapesOk : List Char → Bool
  | [] => true
  | '%' :: c1 :: c2 :: rest =>
    if isHexDigit c1 && isHexDigit c2 then escapesOk rest else false
  | '%' :: _ => false
  | _ :: rest => escapesOk rest

/-- Error conditions of `net/url.unescape(s, encodeHost)`: every `%` must be
followed by two hex digits and, per RFC 3986 §3.2.2 as Go enforces it, an
escape decoding below `0x80` must be exactly `%25`; an unescaped ASCII
character outside the host character class is rejected; bytes at or above
`0x80` pass. -/
def hostEscapesOk : List Char → Bool
  | [] => true
  | '%' :: c1 :: c2 :: rest =>
    if isHexDigit c1 && isHexDigit c2 then
      if unhex c1 < 8 && !(c1 == '2' && c2 == '5') then false
      else hostEscapesOk rest
    else false
  | '%' :: _ => false
  | c :: rest =>
    if c.toNat < 0x80 && shouldEscapeHost c then false else hostEscapesOk rest

/-- Error conditions of `net/url.unescape(s, encodeZone)`: as for the host
mode, except that an escape other than `%25` is allowed only when it decodes
to a space or to a byte the host mode would not escape. -/
def zoneEscapesOk : List Char → Bool
  | [] => true
  | '%' :: c1 :: c2 :: rest =>
    if isHexDigit c1 && isHexDigit c2 then
      let v := unhex c1 * 16 + unhex c2
      if !(c1 == '2' && c2 == '5') && !(v == 32) &&
          (if v < 0x80 then shouldEscapeHost (Char.ofNat v) else true) then false
      else zoneEscapesOk rest
    else false
  | '%' :: _ => false
  | c :: rest =>
    if c.toNat < 0x80 && shouldEscapeHost c then false else zoneEscapesOk rest

/-- `net/url.validOptionalPort`: empty, or `':'` followed by digits only. -/
def validOptionalPort : List Char → Bool
  | [] => true
  | ':' :: rest => rest.all (fun c => '0' ≤ c && c ≤ '9')
  | _ => false

/-- `net/url.validUserinfo`: RFC 3986 §3.2.1 userinfo characters. -/
def validUserinfo (s : List Char) : Bool :=
  s.all fun r =>
    ('A' ≤ r && r ≤ 'Z') || ('a' ≤ r && r ≤ 'z') || ('0' ≤ r && r ≤ '9') ||
    ['-', '.', '_', ':', '~', '!', '$', '&', '\'', '(', ')', '*', '+',
     ',', ';', '=', '%', '@'].contains r

/-- Index of the last occurrence of a character, as `strings.LastIndex` with
a one-character needle. -/
def lastIndexOf (c : Char) (l : List Char) : Option Nat :=
  match l.reverse.findIdx? (fun x => x == c) with
  | some i => some (l.length - 1 - i)
  | none => none

/-- Index of the first occurrence of the substring `%25`, as
`strings.Index(s, "%25")`. -/
def index25 : List Char → Option Nat
  | '%' :: '2' :: '5' :: _ => some 0
  | _ :: rest => (index25 rest).map (fun i => i + 1)
  | [] => none

/-- Verdict of `net/url.parseHost`: a bracketed host needs a closing `]`,
a valid optional port after it, and — when a `%25` zone is present inside
the brackets — host-mode escapes before the zone, zone-mode escapes across
it, and host-mode escapes from `]` on; an unbracketed host needs a valid
optional port after its last `':'` (if any); in either remaining case the
whole host must pass the host-mode escape check. -/
def parseHostOk (host : List Char) : Bool :=
  match host with
  | '[' :: _ =>
    match lastIndexOf ']' host with
    | none => false
    | some i =>
      if !(validOptionalPort (host.drop (i + 1))) then false
      else
        match index25 (host.take i) with
        | some z =>
          hostEscapesOk (host.take z) &&
          zoneEscapesOk ((host.take i).drop z) &&
          hostEscapesOk (host.drop i)
        | none => hostEscapesOk host
  | _ =>
    match lastIndexOf ':' host with
    | none => hostEscapesOk host
    | some i =>
      if !(validOptionalPort (host.drop i)) then false
      else hostEscapesOk host

/-- Verdict of `net/url.parseAuthority`: the part after the last `@` is the
host; a userinfo before it must pass `validUserinfo` and, split at its
first `':'` into username and password (or taken whole when it has no
`':'`), the user-password escape check. -/
def parseAuthorityOk (authority : List Char) : Bool :=
  match lastIndexOf '@' authority with
  | none => parseHostOk authority
  | some i =>
    if !(parseHostOk (authority.drop (i + 1))) then false
    else
      let userinfo := authority.take i
      if !(validUserinfo userinfo) then false
      else if !(userinfo.contains ':') then escapesOk userinfo
      else
        escapesOk (userinfo.takeWhile (fun c => !(c == ':'))) &&
        escapesOk ((userinfo.dropWhile (fun c => !(c == ':'))).drop 1)

/-- Success predicate of Go's `url.ParseRequestURI`, i.e. of
`url.parse(rawURL, viaRequest := true)` (see the section header). After the
scheme and query are split off: a rootless remainder is an opaque URI,
accepted iff the scheme is non-empty (otherwise `viaRequest` yields the
`invalid URI for request` error); a rooted remainder starting with `"//"`
under a non-empty scheme has its authority (up to the next `/`) checked by
`parseAuthority` and the rest by `setPath`; any other rooted remainder goes
to `setPath` whole. -/
def parseRequestURIOk (rawURL : String) : Bool :=
  if stringContainsCTLByte rawURL then false
  else if rawURL == "" then false
  else if rawURL == "*" then true
  else
    match getScheme rawURL.toList with
    | none => false
    | some (scheme, restAll) =>
      let rest := restAll.takeWhile (fun c => !(c == '?'))
      match rest with
      | '/' :: rest1 =>
        if scheme != [] && rest1.head? == some '/' then
          let afterSlashes := rest1.drop 1
          parseAuthorityOk (afterSlashes.takeWhile (fun c => !(c == '/'))) &&
          escapesOk (afterSlashes.dropWhile (fun c => !(c == '/')))
        else escapesOk ('/' :: rest1)
      | _ => !(scheme == [])

/-- `domain.ErrInvalidURL`. -/
inductive SubmitError
  | invalidURL
deriving DecidableEq, Repr

/-- `JobService.Submit` (part_005): validate with `ParseRequestURI`; on a
parse error return `ErrInvalidURL` without calling the repository, otherwise
call `Repository.Create`. The first component is the store after the call. -/
def submit (s : Store) (rawURL : String) : Store × Except SubmitError Job :=
  if parseRequestURIOk rawURL then
    let res := s.create rawURL
    (res.1, Except.ok res.2)
  else (s, Except.error SubmitError.invalidURL)

/-- Modelled from the spec: a "syntactically well-formed absolute URL" in the
spec's words — a string beginning with a URL scheme (a letter followed by
letters, digits, `+`, `-` or `.`) and a `':'`. Used only to compare the
spec's validation contract with what `Submit` actually accepts. -/
def specAbsoluteURL (rawURL : String) : Bool :=
  match getScheme rawURL.toList with
  | some (scheme, _) => !(scheme == [])
  | none => false

/-! ## Processor registry and the worker (registry.go, worker.go)

`Registry.Match` returns the first registered processor whose `Match`
predicate accepts the URL. `Worker.processJob` drives one job through one
poll step; the external command execution (`proc.Process`) is abstracted as
an explicit outcome, and the `JobService` methods it calls
(`MarkFailed`, `MarkProcessing`, `Get`, `MarkRetry`, `MarkComplete`) are the
direct pass-throughs of part_005 to `fail`, `claim`, `get`, `retry`,
`complete`. -/

/-- A registered processor: its name and its URL match predicate
(`domain.URLProcessor` restricted to what the worker claims need). -/
structure URLProcessor where
  name : String
  matchFn : String → Bool

/-- `processor.Registry`: the ordered list of registered processors. -/
def Registry : Type := List URLProcessor

/-- `Registry.Match`: first processor whose predicate accepts the URL,
in registration order; `none` when no processor matches. -/
def Registry.matchURL (r : Registry) (url : String) : Option URLProcessor :=
  r.find? (fun p => p.matchFn url)

/-- Outcome of `proc.Process(ctx, job)` for the matched processor. -/
inductive ExecOutcome
  | ok
  | err (msg : String)

/-- The reason `Worker.processJob` records when no processor matches. -/
def noProcessorReason : String := "no processor for URL"

/-- `Worker.processJob` (worker.go): match a processor (fail permanently when
none), claim (return with the store unchanged when the claim is lost),
re-fetch the job for the fresh attempts count (abandon when the fetch fails),
run the processor, then retry or fail permanently by `Job.CanRetry`, or
complete on success. -/
def processJob (maxRetries : Int) (registry : Registry) (exec : ExecOutcome)
    (s : Store) (job : Job) : Store :=
  match registry.matchURL job.url with
  | none => s.fail job.id noProcessorReason
  | some _ =>
    match s.claim job.id with
    | Except.error _ => s
    | Except.ok s1 =>
      match s1.get job.id with
      | Except.error _ => s1
      | Except.ok fresh =>
        match exec with
        | ExecOutcome.err msg =>
          if fresh.canRetry maxRetries then s1.retry job.id msg
          else s1.fail job.id msg
        | ExecOutcome.ok => s1.complete job.id

/-! ## Isolated execution and the move protocol (command.go)

A directory is modelled as an association list from file name to content
(first match wins, mirroring the filesystem's unique names; every list built
below keeps at most one entry per name). `moveFiles` iterates over the
regular files of the temporary directory (directory entries are skipped by
the source and are therefore not modelled). `os.Stat(dst) == nil` is
existence of the name in the target. The `moveFails` oracle abstracts the
environment: `moveFails name = true` means `os.Rename` failed AND the
`copyFile` fallback also failed for that name, making `moveFiles` return the
copy error at that point; `false` means the rename (or the copy plus
`os.Remove(src)` fallback) succeeded, whose net effect on the target
directory is the new entry. -/

/-- A directory's regular files: name and content pairs. -/
abbrev DirState := List (String × String)

/-- The content stored under a name, if the name exists. -/
def lookupFile (d : DirState) (name : String) : Option String :=
  (d.find? (fun e => e.1 == name)).map (fun e => e.2)

/-- `CommandProcessor.moveFiles`: for each produced file, skip it when the
destination name exists (no overwrite), abort with the move error when both
rename and copy fail, otherwise place it in the target. Returns the target
directory as left behind and the error, if any. -/
def moveFiles (moveFails : String → Bool) :
    List (String × String) → DirState → DirState × Option String
  | [], target => (target, none)
  | (name, content) :: rest, target =>
    if (lookupFile target name).isSome then
      moveFiles moveFails rest target
    else if moveFails name then
      (target, some ("move failed: " ++ name))
    else
      moveFiles moveFails rest ((name, content) :: target)

/-- Outcome of `cmd.CombinedOutput()` in the temporary directory:
`exited produced` is a zero exit leaving `produced` as the regular files of
the temporary directory; `failedWith output` is a non-zero exit, a launch
error, or a context cancellation (the context kills the process and
`CombinedOutput` reports the error). -/
inductive CmdResult
  | exited (produced : List (String × String))
  | failedWith (output : String)

/-- Result of `CommandProcessor.processIsolated`: the target directory after
the call, the error (if any), and whether the temporary directory was
removed. `tempRemoved` models `defer os.RemoveAll(tempDir)`, which runs on
every return path once the temporary directory exists. -/
structure IsoResult where
  target : DirState
  err : Option String
  tempRemoved : Bool
deriving Repr

/-- `CommandProcessor.processIsolated`: run the command in the temporary
directory; on command failure report the error and move nothing; on success
run `moveFiles`; in both cases the deferred removal discards the temporary
directory. -/
def processIsolated (moveFails : String → Bool) (cmd : CmdResult)
    (target : DirState) : IsoResult :=
  match cmd with
  | CmdResult.failedWith out => { target := target, err := some out, tempRemoved := true }
  | CmdResult.exited produced =>
    let res := moveFiles moveFails produced target
    { target := res.1, err := res.2, tempRemoved := true }

/-! ## Concrete fixtures

Small concrete stores and registries used to instantiate the theorems on
explicit inputs. -/

/-- A freshly created job. -/
def pendingJob : Job :=
  { id := 1, url := "https://example.com/x", status := JobStatus.pending,
    attempts := 0, error := "" }

/-- A one-row store holding a freshly created pending job. -/
def pendingStore : Store := { jobs := [pendingJob], nextId := 2 }

/-- `pendingJob` after one successful claim. -/
def processingJob : Job :=
  { id := 1, url := "https://example.com/x", status := JobStatus.processing,
    attempts := 1, error := "" }

/-- `pendingStore` after one successful claim. -/
def claimedStore : Store := { jobs := [processingJob], nextId := 2 }

/-- A store left by an unclean shutdown: one job stranded in processing next
to one completed job. -/
def staleStore : Store :=
  { jobs := [{ id := 1, url := "https://example.com/x", status := JobStatus.processing,
               attempts := 1, error := "" },
             { id := 2, url := "https://example.com/y", status := JobStatus.completed,
               attempts := 1, error := "" }],
    nextId := 3 }

/-- A one-row store holding a completed job. -/
def completedStore : Store :=
  { jobs := [{ id := 1, url := "https://example.com/x", status := JobStatus.completed,
               attempts := 1, error := "" }],
    nextId := 2 }

/-- A processor accepting every URL. -/
def allProc : URLProcessor := { name := "all", matchFn := fun _ => true }

/-- A registry with a single processor accepting every URL. -/
def allReg : Registry := [allProc]

/-- The empty registry: no URL has a processor. -/
def emptyReg : Registry := []

/-! ## Helper lemmas

Generic list facts used across the claims: `find?` commutes with a map that
does not change the search predicate, `find?` over an append, and the row
updates' field-preservation facts. -/

theorem find?_map_comm {α : Type} (f : α → α) (p : α → Bool)
    (hp : ∀ a, p (f a) = p a) :
    ∀ l : List α, (l.map f).find? p = (l.find? p).map f := by
  intro l
  induction l with
  | nil => rfl
  | cons a t ih =>
    by_cases h : p a = true
    · rw [List.map_cons, List.find?_cons_of_pos _ (by rw [hp]; exact h),
        List.find?_cons_of_pos _ h]
      rfl
    · rw [List.map_cons, List.find?_cons_of_neg _ (by rw [hp]; exact h),
        List.find?_cons_of_neg _ h, ih]

theorem find?_append_of_some {α : Type} (p : α → Bool) :
    ∀ (l1 l2 : List α) (a : α), l1.find? p = some a → (l1 ++ l2).find? p = some a := by
  intro l1
  induction l1 with
  | nil => intro l2 a h; exact absurd h (by simp)
  | cons b t ih =>
    intro l2 a h
    by_cases hb : p b = true
    · rw [List.find?_cons_of_pos _ hb] at h
      rw [List.cons_append, List.find?_cons_of_pos _ hb]
      exact h
    · rw [List.find?_cons_of_neg _ hb] at h
      rw [List.cons_append, List.find?_cons_of_neg _ hb]
      exact ih l2 a h

theorem claimUpdate_preserves_id (id : Int) (j : Job) : (claimUpdate id j).id = j.id := by
  unfold claimUpdate; split <;> rfl

theorem claimUpdate_preserves_url (id : Int) (j : Job) : (claimUpdate id j).url = j.url := by
  unfold claimUpdate; split <;> rfl

theorem claimUpdate_preserves_error (id : Int) (j : Job) :
    (claimUpdate id j).error = j.error := by
  unfold claimUpdate; split <;> rfl

theorem claimPred_claimUpdate (id : Int) (j : Job) :
    claimPred id (claimUpdate id j) = false := by
  unfold claimUpdate
  split
  · simp [claimPred]
  · next h => exact Bool.eq_false_iff.mpr h

theorem map_claimUpdate_eq_self (id : Int) :
    ∀ l : List Job, (∀ j ∈ l, claimPred id j = false) → l.map (claimUpdate id) = l := by
  intro l
  induction l with
  | nil => intro _; rfl
  | cons a t ih =>
    intro h
    have ha := h a (List.mem_cons_self a t)
    have ht := ih (fun j hj => h j (List.mem_cons_of_mem a hj))
    simp only [List.map_cons, ht]
    unfold claimUpdate
    rw [ha]
    simp

theorem jobOf_mapped (id : Int) (f : Job → Job) (hf : ∀ j, (f j).id = j.id)
    (l : List Job) :
    (l.map f).find? (fun j => j.id == id) = (l.find? (fun j => j.id == id)).map f :=
  find?_map_comm f _ (fun a => by rw [hf]) l

theorem map_error_comm (f : Job → Job) (hf : ∀ j, (f j).error = j.error) :
    ∀ l : List Job, (l.map f).map Job.error = l.map Job.error := by
  intro l
  induction l with
  | nil => rfl
  | cons a t ih => simp [hf, ih]

theorem claim_eq_of_countP_ne (s : Store) (id : Int)
    (h : s.jobs.countP (fun j => claimPred id j) ≠ 0) :
    s.claim id = Except.ok { s with jobs := s.jobs.map (claimUpdate id) } := by
  unfold Store.claim
  simp [h]

theorem claim_eq_error_of_countP (s : Store) (id : Int)
    (h : s.jobs.countP (fun j => claimPred id j) = 0) :
    s.claim id = Except.error StoreError.notFound := by
  unfold Store.claim
  simp [h]

theorem claim_ok_countP {s s2 : Store} {id : Int} (h : s.claim id = Except.ok s2) :
    s.jobs.countP (fun j => claimPred id j) ≠ 0 ∧
      s2 = { s with jobs := s.jobs.map (claimUpdate id) } := by
  by_cases h0 : s.jobs.countP (fun j => claimPred id j) = 0
  · rw [claim_eq_error_of_countP s id h0] at h
    exact absurd h (by simp)
  · rw [claim_eq_of_countP_ne s id h0] at h
    exact ⟨h0, (Except.ok.inj h).symm⟩

theorem claim_error_countP {s : Store} {id : Int}
    (h : s.claim id = Except.error StoreError.notFound) :
    s.jobs.countP (fun j => claimPred id j) = 0 := by
  by_cases h0 : s.jobs.countP (fun j => claimPred id j) = 0
  · exact h0
  · rw [claim_eq_of_countP_ne s id h0] at h
    exact absurd h (by simp)

theorem countP_claimUpdate_zero (id : Int) (l : List Job) :
    (l.map (claimUpdate id)).countP (fun j => claimPred id j) = 0 := by
  rw [List.countP_eq_zero]
  intro a ha
  rcases List.mem_map.mp ha with ⟨j, _, rfl⟩
  simp [claimPred_claimUpdate]

/-! ## C1: a claim succeeds exactly once per pending job -/

/-- C1: for every store and job id, `claim` succeeds iff some row with that
id is currently pending; when the row with the id is pending, the success
transitions exactly that row to processing with attempts incremented by 1
and every other field unchanged; when `claim` fails with NotFound the
conditional update touched no row, so the persisted state is unchanged; and
after one successful claim a second claim on the same id fails with
NotFound — of two claim attempts on the same pending job at most one
succeeds. -/
theorem claim_pending_exactly_once :
    (∀ (s : Store) (id : Int),
      (∃ s2, s.claim id = Except.ok s2) ↔
        ∃ j ∈ s.jobs, j.id = id ∧ j.status = JobStatus.pending) ∧
    (∀ (s : Store) (id : Int) (j : Job),
      Store.jobOf s id = some j → j.status = JobStatus.pending →
      ∃ s2, s.claim id = Except.ok s2 ∧
        Store.jobOf s2 id =
          some { j with status := JobStatus.processing, attempts := j.attempts + 1 }) ∧
    (∀ (s : Store) (id : Int),
      s.claim id = Except.error StoreError.notFound →
      s.jobs.map (claimUpdate id) = s.jobs) ∧
    (∀ (s : Store) (id : Int) (s2 : Store),
      s.claim id = Except.ok s2 → s2.claim id = Except.error StoreError.notFound) := by
  refine ⟨?_, ?_, ?_, ?_⟩
  · intro s id
    constructor
    · rintro ⟨s2, h⟩
      have h0 := (claim_ok_countP h).1
      rcases List.countP_pos_iff.mp (Nat.pos_of_ne_zero h0) with ⟨j, hj, hp⟩
      refine ⟨j, hj, ?_⟩
      simpa [claimPred] using hp
    · rintro ⟨j, hj, hid, hpend⟩
      have hp : claimPred id j = true := by simp [claimPred, hid, hpend]
      have h0 : s.jobs.countP (fun j => claimPred id j) ≠ 0 := by
        intro hz
        exact absurd hp (by simpa using List.countP_eq_zero.mp hz j hj)
      exact ⟨_, claim_eq_of_countP_ne s id h0⟩
  · intro s id j hfind hpend
    unfold Store.jobOf at hfind ⊢
    have hidp := List.find?_some hfind
    simp only at hidp
    have hp : claimPred id j = true := by
      simp only [claimPred, hpend]
      simp [hidp]
    have hmem : j ∈ s.jobs := List.mem_of_find?_eq_some hfind
    have h0 : s.jobs.countP (fun j => claimPred id j) ≠ 0 := by
      intro hz
      exact absurd hp (by simpa using List.countP_eq_zero.mp hz j hmem)
    refine ⟨_, claim_eq_of_countP_ne s id h0, ?_⟩
    rw [jobOf_mapped id _ (claimUpdate_preserves_id id), hfind]
    simp [claimUpdate, hp]
  · intro s id h
    exact map_claimUpdate_eq_self id s.jobs (fun j hj => by
      simpa using List.countP_eq_zero.mp (claim_error_countP h) j hj)
  · intro s id s2 h
    obtain ⟨h0, rfl⟩ := claim_ok_countP h
    exact claim_eq_error_of_countP _ id (countP_claimUpdate_zero id s.jobs)

/-- C1 witness: on a store holding one fresh pending job, `claim 1` succeeds
and leaves the job processing with attempts 1. -/
theorem claim_pending_exactly_once_witness :
    ∃ s2, pendingStore.claim 1 = Except.ok s2 ∧
      Store.jobOf s2 1 =
        some { id := 1, url := "https://example.com/x", status := JobStatus.processing,
               attempts := 0 + 1, error := "" } :=
  claim_pending_exactly_once.2.1 pendingStore 1
    { id := 1, url := "https://example.com/x", status := JobStatus.pending,
      attempts := 0, error := "" } rfl rfl

/-! ## C2: recoverStale resets exactly the processing jobs -/

/-- C2: `recoverStale` returns the number of processing rows; afterwards no
row is processing; every row that was processing reappears pending with the
fixed recovery marker in its error field (id, url and attempts unchanged);
and every row that was pending, completed or failed is untouched. -/
theorem recoverStale_resets_processing :
    ∀ s : Store,
      (s.recoverStale).2 =
        (s.jobs.filter (fun j => j.status == JobStatus.processing)).length ∧
      (∀ j2 ∈ (s.recoverStale).1.jobs, j2.status ≠ JobStatus.processing) ∧
      (∀ j ∈ s.jobs, j.status = JobStatus.processing →
        { j with status := JobStatus.pending, error := Store.recoveredMarker } ∈
          (s.recoverStale).1.jobs) ∧
      (∀ j ∈ s.jobs, j.status ≠ JobStatus.processing → j ∈ (s.recoverStale).1.jobs) := by
  intro s
  refine ⟨?_, ?_, ?_, ?_⟩
  · exact List.countP_eq_length_filter _ _
  · intro j2 hj2
    unfold Store.recoverStale at hj2
    simp only [List.mem_map] at hj2
    rcases hj2 with ⟨j, _, rfl⟩
    by_cases h : (j.status == JobStatus.processing) = true
    · simp [h]
    · simp only [h]
      simpa using h
  · intro j hj hproc
    unfold Store.recoverStale
    refine List.mem_map.mpr ⟨j, hj, ?_⟩
    rw [show (j.status == JobStatus.processing) = true by simp [hproc]]
    simp
  · intro j hj hne
    unfold Store.recoverStale
    refine List.mem_map.mpr ⟨j, hj, ?_⟩
    rw [show (j.status == JobStatus.processing) = false by simpa using hne]
    simp

/-- C2 witness: on the stale store (one processing job next to one completed
job), recovery reports one affected row, the processing job reappears
pending with the recovery marker, and the completed job is untouched. -/
theorem recoverStale_resets_processing_witness :
    (staleStore.recoverStale).2 = 1 ∧
      ({ id := 1, url := "https://example.com/x", status := JobStatus.pending,
         attempts := 1, error := Store.recoveredMarker } : Job) ∈
        (staleStore.recoverStale).1.jobs ∧
      ({ id := 2, url := "https://example.com/y", status := JobStatus.completed,
         attempts := 1, error := "" } : Job) ∈ (staleStore.recoverStale).1.jobs := by
  refine ⟨(recoverStale_resets_processing staleStore).1.trans (by decide), ?_, ?_⟩
  · exact (recoverStale_resets_processing staleStore).2.2.1
      { id := 1, url := "https://example.com/x", status := JobStatus.processing,
        attempts := 1, error := "" } (by decide) rfl
  · exact (recoverStale_resets_processing staleStore).2.2.2
      { id := 2, url := "https://example.com/y", status := JobStatus.completed,
        attempts := 1, error := "" } (by decide) (by decide)

/-! ## C3: attempts is monotone and changed only by a successful claim -/

theorem jobOf_store_map (s : Store) (f : Job → Job) (hf : ∀ j, (f j).id = j.id)
    (id : Int) :
    Store.jobOf { s with jobs := s.jobs.map f } id = (Store.jobOf s id).map f := by
  unfold Store.jobOf
  exact jobOf_mapped id f hf s.jobs

theorem jobOf_create (s : Store) (url : String) (id : Int) (j : Job)
    (h : Store.jobOf s id = some j) : Store.jobOf (s.create url).1 id = some j := by
  unfold Store.jobOf at h ⊢
  unfold Store.create
  exact find?_append_of_some _ _ _ _ h

theorem jobOf_complete (s : Store) (cid id : Int) :
    Store.jobOf (s.complete cid) id = (Store.jobOf s id).map
      (fun j => if j.id == cid then { j with status := JobStatus.completed } else j) := by
  unfold Store.complete
  exact jobOf_store_map s _ (fun j => by split <;> rfl) id

theorem jobOf_fail (s : Store) (cid id : Int) (reason : String) :
    Store.jobOf (s.fail cid reason) id = (Store.jobOf s id).map
      (fun j => if j.id == cid then
        { j with status := JobStatus.failed, error := reason } else j) := by
  unfold Store.fail
  exact jobOf_store_map s _ (fun j => by split <;> rfl) id

theorem jobOf_retry (s : Store) (cid id : Int) (reason : String) :
    Store.jobOf (s.retry cid reason) id = (Store.jobOf s id).map
      (fun j => if j.id == cid then
        { j with status := JobStatus.pending, error := reason } else j) := by
  unfold Store.retry
  exact jobOf_store_map s _ (fun j => by split <;> rfl) id

theorem jobOf_recoverStale (s : Store) (id : Int) :
    Store.jobOf (s.recoverStale).1 id = (Store.jobOf s id).map
      (fun j => if j.status == JobStatus.processing then
        { j with status := JobStatus.pending, error := Store.recoveredMarker } else j) := by
  unfold Store.recoverStale
  exact jobOf_store_map s _ (fun j => by split <;> rfl) id

theorem claim_of_jobOf_pending {s : Store} {id : Int} {j : Job}
    (hfind : Store.jobOf s id = some j) (hpend : j.status = JobStatus.pending) :
    s.claim id = Except.ok { s with jobs := s.jobs.map (claimUpdate id) } ∧
      claimPred id j = true := by
  unfold Store.jobOf at hfind
  have hidp := List.find?_some hfind
  simp only at hidp
  have hp : claimPred id j = true := by
    simp only [claimPred, hpend]
    simp [hidp]
  have hmem : j ∈ s.jobs := List.mem_of_find?_eq_some hfind
  have h0 : s.jobs.countP (fun j => claimPred id j) ≠ 0 := by
    intro hz
    exact absurd hp (by simpa using List.countP_eq_zero.mp hz j hmem)
  exact ⟨claim_eq_of_countP_ne s id h0, hp⟩

theorem apply_attempts_exact (op : StoreOp) (s : Store) (id : Int) (j : Job)
    (h : Store.jobOf s id = some j) (hop : ∀ i, op ≠ StoreOp.claim i) :
    ∃ j2, Store.jobOf (s.apply op) id = some j2 ∧ j2.attempts = j.attempts ∧
      (∀ r, op = StoreOp.retry id r → j2.status = JobStatus.pending) := by
  cases op with
  | create url =>
    exact ⟨j, jobOf_create s url id j h, rfl, by intro r hr; cases hr⟩
  | claim cid => exact absurd rfl (hop cid)
  | complete cid =>
    refine ⟨_, by rw [show s.apply (StoreOp.complete cid) = s.complete cid from rfl,
      jobOf_complete s cid id, h]; rfl, ?_, by intro r hr; cases hr⟩
    dsimp only
    split <;> rfl
  | fail cid reason =>
    refine ⟨_, by rw [show s.apply (StoreOp.fail cid reason) = s.fail cid reason from rfl,
      jobOf_fail s cid id reason, h]; rfl, ?_, by intro r hr; cases hr⟩
    dsimp only
    split <;> rfl
  | retry cid reason =>
    refine ⟨_, by rw [show s.apply (StoreOp.retry cid reason) = s.retry cid reason from rfl,
      jobOf_retry s cid id reason, h]; rfl, ?_, ?_⟩
    · dsimp only
      split <;> rfl
    · intro r hr
      injection hr with h1 h2
      subst h1
      have hid := List.find?_some (by unfold Store.jobOf at h; exact h)
      simp only at hid
      simp [hid]
  | recoverStale =>
    refine ⟨_, by rw [show s.apply StoreOp.recoverStale = (s.recoverStale).1 from rfl,
      jobOf_recoverStale s id, h]; rfl, ?_, by intro r hr; cases hr⟩
    dsimp only
    split <;> rfl

theorem apply_attempts_step (op : StoreOp) (s : Store) (id : Int) (j : Job)
    (h : Store.jobOf s id = some j) :
    ∃ j2, Store.jobOf (s.apply op) id = some j2 ∧ j.attempts ≤ j2.attempts := by
  cases op with
  | claim cid =>
    show ∃ j2, Store.jobOf (match s.claim cid with
      | Except.ok s2 => s2
      | Except.error _ => s) id = some j2 ∧ j.attempts ≤ j2.attempts
    cases hc : s.claim cid with
    | error e => exact ⟨j, h, le_refl _⟩
    | ok s2 =>
      obtain ⟨h0, rfl⟩ := claim_ok_countP hc
      refine ⟨claimUpdate cid j, ?_, ?_⟩
      · rw [jobOf_store_map s _ (claimUpdate_preserves_id cid) id, h]
        rfl
      · unfold claimUpdate
        split
        · simp only
          omega
        · exact le_refl _
  | create url =>
    obtain ⟨j2, h2, he, _⟩ := apply_attempts_exact (StoreOp.create url) s id j h
      (fun i hi => by cases hi)
    exact ⟨j2, h2, le_of_eq he.symm⟩
  | complete cid =>
    obtain ⟨j2, h2, he, _⟩ := apply_attempts_exact (StoreOp.complete cid) s id j h
      (fun i hi => by cases hi)
    exact ⟨j2, h2, le_of_eq he.symm⟩
  | fail cid reason =>
    obtain ⟨j2, h2, he, _⟩ := apply_attempts_exact (StoreOp.fail cid reason) s id j h
      (fun i hi => by cases hi)
    exact ⟨j2, h2, le_of_eq he.symm⟩
  | retry cid reason =>
    obtain ⟨j2, h2, he, _⟩ := apply_attempts_exact (StoreOp.retry cid reason) s id j h
      (fun i hi => by cases hi)
    exact ⟨j2, h2, le_of_eq he.symm⟩
  | recoverStale =>
    obtain ⟨j2, h2, he, _⟩ := apply_attempts_exact StoreOp.recoverStale s id j h
      (fun i hi => by cases hi)
    exact ⟨j2, h2, le_of_eq he.symm⟩

/-- C3: across any sequence of repository operations a job's attempts is
non-decreasing; a successful claim on a pending job increments it by exactly
1; and every operation other than claim — create, complete, fail, retry,
recoverStale — leaves an existing job's attempts unchanged, retry in
particular returning the job to pending without touching attempts. -/
theorem attempts_monotone :
    (∀ (s : Store) (ops : List StoreOp) (id : Int) (j : Job),
      Store.jobOf s id = some j →
      ∃ j2, Store.jobOf (s.applyAll ops) id = some j2 ∧ j.attempts ≤ j2.attempts) ∧
    (∀ (s : Store) (id : Int) (j : Job),
      Store.jobOf s id = some j → j.status = JobStatus.pending →
      ∃ j2, Store.jobOf (s.apply (StoreOp.claim id)) id = some j2 ∧
        j2.attempts = j.attempts + 1) ∧
    (∀ (s : Store) (id : Int) (j : Job) (op : StoreOp),
      Store.jobOf s id = some j → (∀ i, op ≠ StoreOp.claim i) →
      ∃ j2, Store.jobOf (s.apply op) id = some j2 ∧ j2.attempts = j.attempts ∧
        (∀ r, op = StoreOp.retry id r → j2.status = JobStatus.pending)) := by
  refine ⟨?_, ?_, ?_⟩
  · intro s ops
    induction ops generalizing s with
    | nil => intro id j h; exact ⟨j, h, le_refl _⟩
    | cons op rest ih =>
      intro id j h
      obtain ⟨j1, h1, hle1⟩ := apply_attempts_step op s id j h
      obtain ⟨j2, h2, hle2⟩ := ih (s.apply op) id j1 h1
      exact ⟨j2, h2, le_trans hle1 hle2⟩
  · intro s id j h hpend
    obtain ⟨hc, hp⟩ := claim_of_jobOf_pending h hpend
    refine ⟨claimUpdate id j, ?_, ?_⟩
    · show Store.jobOf (match s.claim id with
        | Except.ok s2 => s2
        | Except.error _ => s) id = some (claimUpdate id j)
      rw [hc, jobOf_store_map s _ (claimUpdate_preserves_id id) id, h]
      rfl
    · unfold claimUpdate
      rw [hp]
      simp
  · exact fun s id j op h hop => apply_attempts_exact op s id j h hop

/-- C3 witness: starting from a fresh pending job with attempts 0, the
sequence claim, retry, claim leaves attempts at least 0. -/
theorem attempts_monotone_witness :
    ∃ j2, Store.jobOf
        (pendingStore.applyAll
          [StoreOp.claim 1, StoreOp.retry 1 "boom", StoreOp.claim 1]) 1 = some j2 ∧
      (0 : Int) ≤ j2.attempts :=
  attempts_monotone.1 pendingStore
    [StoreOp.claim 1, StoreOp.retry 1 "boom", StoreOp.claim 1] 1
    { id := 1, url := "https://example.com/x", status := JobStatus.pending,
      attempts := 0, error := "" } rfl

/-! ## C4: retry eligibility on execution failure -/

/-- C4: for a claimed job whose executor run fails, the worker marks it
pending with the failure reason iff the re-fetched job's attempts is
strictly below maxRetries and its status is not completed, and marks it
permanently failed with the failure reason otherwise; a job whose attempts
equals maxRetries - 1 at that check (and is not completed) goes to pending,
and one whose attempts equals maxRetries goes to failed. -/
theorem worker_retry_eligibility :
    ∀ (mr : Int) (reg : Registry) (s s1 : Store) (job fresh : Job)
      (p : URLProcessor) (msg : String),
      reg.matchURL job.url = some p →
      s.claim job.id = Except.ok s1 →
      s1.get job.id = Except.ok fresh →
      (processJob mr reg (ExecOutcome.err msg) s job =
        if fresh.canRetry mr then s1.retry job.id msg else s1.fail job.id msg) ∧
      (fresh.canRetry mr = true ↔
        fresh.attempts < mr ∧ fresh.status ≠ JobStatus.completed) ∧
      (fresh.attempts = mr - 1 → fresh.status ≠ JobStatus.completed →
        processJob mr reg (ExecOutcome.err msg) s job = s1.retry job.id msg) ∧
      (fresh.attempts = mr →
        processJob mr reg (ExecOutcome.err msg) s job = s1.fail job.id msg) := by
  intro mr reg s s1 job fresh p msg hm hc hg
  have hpj : processJob mr reg (ExecOutcome.err msg) s job =
      if fresh.canRetry mr then s1.retry job.id msg else s1.fail job.id msg := by
    unfold processJob
    simp only [hm, hc, hg]
  have hiff : fresh.canRetry mr = true ↔
      fresh.attempts < mr ∧ fresh.status ≠ JobStatus.completed := by
    unfold Job.canRetry
    simp
  refine ⟨hpj, hiff, ?_, ?_⟩
  · intro ha hs
    have hb : fresh.canRetry mr = true := hiff.mpr ⟨by omega, hs⟩
    rw [hpj, hb]
    simp
  · intro ha
    have hb : fresh.canRetry mr = false := by
      cases hcr : fresh.canRetry mr
      · rfl
      · rcases hiff.mp hcr with ⟨hlt, _⟩
        omega
    rw [hpj, hb]
    simp

/-- C4 witness: with maxRetries 2, the claimed job re-fetched with
attempts 1 = maxRetries - 1 is retried (marked pending with the reason). -/
theorem worker_retry_eligibility_witness :
    processJob 2 allReg (ExecOutcome.err "boom") pendingStore pendingJob =
      claimedStore.retry pendingJob.id "boom" :=
  (worker_retry_eligibility 2 allReg pendingStore claimedStore pendingJob processingJob
      allProc "boom" rfl rfl rfl).2.2.1 (by decide) (by decide)

/-! ## C5: a URL without a processor fails immediately, without a claim -/

/-- C5: when no registered processor matches the job's URL, the worker's
processing of that job is exactly the store `fail` write with reason
"no processor for URL": the job is never claimed, its attempts is unchanged
(in particular stays 0), and its status becomes failed — never processing. -/
theorem worker_no_processor :
    ∀ (mr : Int) (reg : Registry) (exec : ExecOutcome) (s : Store) (job : Job),
      reg.matchURL job.url = none →
      processJob mr reg exec s job = s.fail job.id noProcessorReason ∧
      (∀ j, Store.jobOf s job.id = some j →
        Store.jobOf (processJob mr reg exec s job) job.id =
          some { j with status := JobStatus.failed, error := noProcessorReason }) := by
  intro mr reg exec s job hm
  have h1 : processJob mr reg exec s job = s.fail job.id noProcessorReason := by
    unfold processJob
    rw [hm]
  refine ⟨h1, ?_⟩
  intro j hj
  have hid := List.find?_some (show s.jobs.find? (fun j => j.id == job.id) = some j from hj)
  simp only at hid
  have hid2 : j.id = job.id := by simpa using hid
  rw [h1, jobOf_fail s job.id job.id, hj]
  simp [hid2]

/-- C5 witness: with an empty registry, the fresh pending job (attempts 0)
is marked failed with "no processor for URL" and attempts still 0. -/
theorem worker_no_processor_witness :
    Store.jobOf (processJob 3 emptyReg ExecOutcome.ok pendingStore pendingJob)
        pendingJob.id =
      some { pendingJob with status := JobStatus.failed, error := noProcessorReason } :=
  (worker_no_processor 3 emptyReg ExecOutcome.ok pendingStore pendingJob rfl).2
    pendingJob rfl

/-! ## C6: isolated execution never overwrites existing output -/

theorem lookupFile_moveFiles (mf : String → Bool) :
    ∀ (src : List (String × String)) (target : DirState) (name content : String),
      lookupFile target name = some content →
      lookupFile (moveFiles mf src target).1 name = some content := by
  intro src
  induction src with
  | nil =>
    intro target name content h
    simpa [moveFiles] using h
  | cons e rest ih =>
    intro target name content h
    obtain ⟨n, c⟩ := e
    by_cases hex : (lookupFile target n).isSome = true
    · rw [show moveFiles mf ((n, c) :: rest) target = moveFiles mf rest target from by
        simp [moveFiles, hex]]
      exact ih target name content h
    · by_cases hmf : mf n = true
      · rw [show moveFiles mf ((n, c) :: rest) target =
            (target, some ("move failed: " ++ n)) from by simp [moveFiles, hex, hmf]]
        exact h
      · have hne2 : n ≠ name := by
          intro he
          rw [he, h] at hex
          simp at hex
        have h2 : lookupFile ((n, c) :: target) name = some content := by
          unfold lookupFile at h ⊢
          rw [List.find?_cons_of_neg _ (by simpa using hne2)]
          exact h
        rw [show moveFiles mf ((n, c) :: rest) target =
            moveFiles mf rest ((n, c) :: target) from by simp [moveFiles, hex, hmf]]
        exact ih ((n, c) :: target) name content h2

/-- C6: when the target directory already holds a file of a produced name,
isolated execution leaves the existing file's content unchanged — the
conflicting produced file is skipped, not moved — and the temporary
directory is removed on every exit path (success, move failure, command
failure or cancellation). -/
theorem isolated_no_overwrite :
    ∀ (mf : String → Bool) (cmd : CmdResult) (target : DirState)
      (name content : String),
      lookupFile target name = some content →
      lookupFile (processIsolated mf cmd target).target name = some content ∧
      (processIsolated mf cmd target).tempRemoved = true := by
  intro mf cmd target name content h
  cases cmd with
  | failedWith out => exact ⟨h, rfl⟩
  | exited produced =>
    exact ⟨lookupFile_moveFiles mf produced target name content h, rfl⟩

/-- C6 witness: a target holding `a.txt` = "old" and a command producing
`a.txt` = "new": the target keeps "old" and the temp directory is removed. -/
theorem isolated_no_overwrite_witness :
    lookupFile (processIsolated (fun _ => false)
        (CmdResult.exited [("a.txt", "new")]) [("a.txt", "old")]).target "a.txt" =
      some "old" ∧
    (processIsolated (fun _ => false) (CmdResult.exited [("a.txt", "new")])
        [("a.txt", "old")]).tempRemoved = true :=
  isolated_no_overwrite (fun _ => false) (CmdResult.exited [("a.txt", "new")])
    [("a.txt", "old")] "a.txt" "old" rfl

/-! ## C10: a failed move leaves earlier moved files visible -/

/-- C10: the file-relocation step is not atomic across files: when the
second of two produced files fails to move (rename and copy fallback both
fail), the executor reports an error, yet the first file is already in the
target directory and the second is not — a strict, non-empty subset of the
command's output is visible to consumers. -/
theorem moveFiles_partial_output :
    ∀ (mf : String → Bool) (n1 c1 n2 c2 : String) (target : DirState),
      lookupFile target n1 = none → lookupFile target n2 = none → n1 ≠ n2 →
      mf n1 = false → mf n2 = true →
      ((processIsolated mf (CmdResult.exited [(n1, c1), (n2, c2)]) target).err).isSome
          = true ∧
      lookupFile (processIsolated mf
          (CmdResult.exited [(n1, c1), (n2, c2)]) target).target n1 = some c1 ∧
      lookupFile (processIsolated mf
          (CmdResult.exited [(n1, c1), (n2, c2)]) target).target n2 = none := by
  intro mf n1 c1 n2 c2 target h1 h2 hne hm1 hm2
  have hl2 : lookupFile ((n1, c1) :: target) n2 = none := by
    unfold lookupFile at h2 ⊢
    rw [List.find?_cons_of_neg _ (by simpa using hne)]
    exact h2
  have e1 : moveFiles mf [(n1, c1), (n2, c2)] target =
      ((n1, c1) :: target, some ("move failed: " ++ n2)) := by
    simp [moveFiles, h1, hl2, hm1, hm2]
  have etgt : (processIsolated mf (CmdResult.exited [(n1, c1), (n2, c2)]) target).target
      = (n1, c1) :: target := by
    show (moveFiles mf [(n1, c1), (n2, c2)] target).1 = (n1, c1) :: target
    rw [e1]
  have eerr : (processIsolated mf (CmdResult.exited [(n1, c1), (n2, c2)]) target).err
      = some ("move failed: " ++ n2) := by
    show (moveFiles mf [(n1, c1), (n2, c2)] target).2 = some ("move failed: " ++ n2)
    rw [e1]
  refine ⟨by rw [eerr]; rfl, ?_, by rw [etgt]; exact hl2⟩
  rw [etgt]
  unfold lookupFile
  rw [List.find?_cons_of_pos _ (by simp)]
  rfl

/-- C10 witness: of two produced files `a.txt` and `b.txt` (empty target),
with only `b.txt` failing to move, the executor errors while `a.txt` is
visible in the target and `b.txt` is not. -/
theorem moveFiles_partial_output_witness :
    ((processIsolated (fun n => n == "b.txt")
        (CmdResult.exited [("a.txt", "A"), ("b.txt", "B")]) []).err).isSome = true ∧
    lookupFile (processIsolated (fun n => n == "b.txt")
        (CmdResult.exited [("a.txt", "A"), ("b.txt", "B")]) []).target "a.txt" = some "A" ∧
    lookupFile (processIsolated (fun n => n == "b.txt")
        (CmdResult.exited [("a.txt", "A"), ("b.txt", "B")]) []).target "b.txt" = none :=
  moveFiles_partial_output (fun n => n == "b.txt") "a.txt" "A" "b.txt" "B" []
    rfl rfl (by decide) (by decide) (by decide)

/-! ## C7: is completed terminal against Store operations? -/

theorem map_eq_self_of_mem {α : Type} (f : α → α) :
    ∀ l : List α, (∀ a ∈ l, f a = a) → l.map f = l := by
  intro l
  induction l with
  | nil => intro _; rfl
  | cons a t ih =>
    intro h
    rw [List.map_cons, h a (List.mem_cons_self a t),
      ih (fun b hb => h b (List.mem_cons_of_mem a hb))]

theorem job_status_update_self (j : Job) (h : j.status = JobStatus.completed) :
    ({ j with status := JobStatus.completed } : Job) = j := by
  cases j
  simp only at h
  rw [h]

/-- C7 counterexample: the Store's `fail` carries no status guard and
mutates a completed job — after `fail` its status is failed and its error
is overwritten, so completed is not terminal against arbitrary Store
operations. -/
theorem completed_mutated_by_fail :
    Store.jobOf completedStore 1 =
      some { id := 1, url := "https://example.com/x", status := JobStatus.completed,
             attempts := 1, error := "" } ∧
    Store.jobOf (completedStore.fail 1 "boom") 1 =
      some { id := 1, url := "https://example.com/x", status := JobStatus.failed,
             attempts := 1, error := "boom" } ∧
    JobStatus.failed ≠ JobStatus.completed :=
  ⟨rfl, rfl, by decide⟩

/-- C7 amended: for a job id whose rows are all completed, `claim` fails
with NotFound and its conditional update touches no row, `complete` leaves
the table unchanged (a repeated complete is idempotent in effect), and
`recoverStale` leaves the job unchanged; `fail` and `retry`, however, have
no status guard at the Store level and do mutate a completed job, so
terminality of completed relies on the worker never invoking them on a
completed job. -/
theorem completed_terminal_guarded_ops :
    ∀ (s : Store) (id : Int),
      (∀ j ∈ s.jobs, j.id = id → j.status = JobStatus.completed) →
      (s.claim id = Except.error StoreError.notFound ∧
        s.jobs.map (claimUpdate id) = s.jobs) ∧
      (s.complete id).jobs = s.jobs ∧
      Store.jobOf (s.recoverStale).1 id = Store.jobOf s id := by
  intro s id hall
  have hz : s.jobs.countP (fun j => claimPred id j) = 0 := by
    rw [List.countP_eq_zero]
    intro j hj hb
    simp only [claimPred, Bool.and_eq_true, beq_iff_eq] at hb
    have hc := hall j hj hb.1
    rw [hb.2] at hc
    cases hc
  refine ⟨⟨claim_eq_error_of_countP s id hz, ?_⟩, ?_, ?_⟩
  · exact map_claimUpdate_eq_self id s.jobs
      (fun j hj => by simpa using List.countP_eq_zero.mp hz j hj)
  · show s.jobs.map (fun j =>
        if j.id == id then { j with status := JobStatus.completed } else j) = s.jobs
    refine map_eq_self_of_mem _ s.jobs (fun j hj => ?_)
    by_cases hid : (j.id == id) = true
    · rw [if_pos hid]
      exact job_status_update_self j (hall j hj (by simpa using hid))
    · rw [if_neg hid]
  · rw [jobOf_recoverStale s id]
    cases hfind : Store.jobOf s id with
    | none => rfl
    | some j =>
      have hmem : j ∈ s.jobs := List.mem_of_find?_eq_some
        (show s.jobs.find? (fun x => x.id == id) = some j from hfind)
      have hid := List.find?_some
        (show s.jobs.find? (fun x => x.id == id) = some j from hfind)
      simp only at hid
      have hc := hall j hmem (by simpa using hid)
      simp [hc]

/-- C7 amended witness: on the one-row completed store, claim fails with
NotFound and a repeated complete changes nothing. -/
theorem completed_terminal_guarded_ops_witness :
    completedStore.claim 1 = Except.error StoreError.notFound ∧
      (completedStore.complete 1).jobs = completedStore.jobs :=
  ⟨(completed_terminal_guarded_ops completedStore 1 (by decide)).1.1,
   (completed_terminal_guarded_ops completedStore 1 (by decide)).2.1⟩

/-! ## C8: can a processing or completed job carry a non-empty error? -/

/-- C8 counterexample: `Claim` does not clear the error column, so the
reachable sequence create, claim, retry("boom"), claim leaves the job in
processing with the non-empty error "boom". -/
theorem processing_with_nonempty_error :
    Store.jobOf
      (emptyStore.applyAll
        [StoreOp.create "https://example.com/x", StoreOp.claim 1,
         StoreOp.retry 1 "boom", StoreOp.claim 1]) 1 =
      some { id := 1, url := "https://example.com/x", status := JobStatus.processing,
             attempts := 2, error := "boom" } ∧
    "boom" ≠ "" :=
  ⟨rfl, by decide⟩

/-- C8 amended: the error column is written only by fail, retry and
recoverStale; claim and complete preserve every row's error field
unchanged, and a created row starts with an empty error. A processing or
completed job may therefore carry the non-empty reason recorded by its most
recent retry, failure or recovery, rather than always having an empty
error. -/
theorem error_written_only_by_failure_ops :
    (∀ (s s2 : Store) (id : Int), s.claim id = Except.ok s2 →
      s2.jobs.map Job.error = s.jobs.map Job.error) ∧
    (∀ (s : Store) (id : Int),
      (s.complete id).jobs.map Job.error = s.jobs.map Job.error) ∧
    (∀ (s : Store) (url : String), ((s.create url).2).error = "") := by
  refine ⟨?_, ?_, ?_⟩
  · intro s s2 id h
    obtain ⟨_, rfl⟩ := claim_ok_countP h
    exact map_error_comm (claimUpdate id) (claimUpdate_preserves_error id) s.jobs
  · intro s id
    exact map_error_comm _ (fun j => by split <;> rfl) s.jobs
  · intro s url
    rfl

/-- C8 amended witness: the claim taking the fresh pending store to the
claimed store leaves the error column unchanged. -/
theorem error_written_only_by_failure_ops_witness :
    claimedStore.jobs.map Job.error = pendingStore.jobs.map Job.error :=
  error_written_only_by_failure_ops.1 pendingStore claimedStore 1 rfl

/-! ## C9: what does Submit actually accept? -/

/-- C9 counterexample: `"/foo"` is not a well-formed absolute URL (it has no
scheme), yet `Submit` accepts it — `ParseRequestURI` also admits absolute
(rooted) paths — and a pending row with attempts 0 is created for it. -/
theorem submit_accepts_rooted_path :
    specAbsoluteURL "/foo" = false ∧
    (submit emptyStore "/foo").2 =
      Except.ok { id := 1, url := "/foo", status := JobStatus.pending,
                  attempts := 0, error := "" } ∧
    (submit emptyStore "/foo").1.jobs =
      [{ id := 1, url := "/foo", status := JobStatus.pending, attempts := 0,
         error := "" }] :=
  ⟨rfl, rfl, rfl⟩

/-- C9 amended: `Submit` fails with InvalidURL iff `ParseRequestURI`
rejects the string; on rejection the store is untouched (no row is
created, the validation preceding any Store call); on acceptance — which is
strictly wider than "well-formed absolute URL", covering in particular
absolute (rooted) paths such as `"/foo"` — a row is appended with status
pending and attempts 0. -/
theorem submit_validation :
    ∀ (s : Store) (rawURL : String),
      ((submit s rawURL).2 = Except.error SubmitError.invalidURL ↔
        parseRequestURIOk rawURL = false) ∧
      (parseRequestURIOk rawURL = false → (submit s rawURL).1 = s) ∧
      (parseRequestURIOk rawURL = true →
        (submit s rawURL).2 =
          Except.ok { id := s.nextId, url := rawURL, status := JobStatus.pending,
                      attempts := 0, error := "" } ∧
        (submit s rawURL).1.jobs =
          s.jobs ++ [{ id := s.nextId, url := rawURL, status := JobStatus.pending,
                       attempts := 0, error := "" }]) := by
  intro s rawURL
  by_cases hp : parseRequestURIOk rawURL = true
  · have e : submit s rawURL = ((s.create rawURL).1, Except.ok (s.create rawURL).2) := by
      unfold submit
      rw [hp]
      rfl
    refine ⟨?_, ?_, ?_⟩
    · rw [e, hp]
      simp
    · intro hf
      rw [hp] at hf
      cases hf
    · intro _
      rw [e]
      exact ⟨rfl, rfl⟩
  · have hpf : parseRequestURIOk rawURL = false := by simpa using hp
    have e : submit s rawURL = (s, Except.error SubmitError.invalidURL) := by
      unfold submit
      rw [hpf]
      rfl
    refine ⟨?_, fun _ => by rw [e], ?_⟩
    · rw [e, hpf]
      simp
    · intro ht
      rw [hpf] at ht
      cases ht

/-- C9 amended witness: a genuine absolute URL is accepted and creates the
pending row with attempts 0 in the empty store. -/
theorem submit_validation_witness :
    (submit emptyStore "https://example.com/x").2 =
      Except.ok { id := 1, url := "https://example.com/x",
                  status := JobStatus.pending, attempts := 0, error := "" } ∧
    (submit emptyStore "https://example.com/x").1.jobs =
      [{ id := 1, url := "https://example.com/x", status := JobStatus.pending,
         attempts := 0, error := "" }] :=
  (submit_validation emptyStore "https://example.com/x").2.2 rfl

end Catcher
